import Mathlib

/-!
Verification development for the concept-resolution / fact-reconciliation
pipeline of this repository.

The Python sources embedded here are, in order:
- financial_data/Alternative_research/final data extractor.py
  (eligibility filters, per-fiscal-year selection, alternative collection,
  carry-forward, FreeCashFlow derivation, per-metric fetch loop);
- financial_data/Alternative_research/cosine_similarity_selection.py
  (TF-IDF cosine substitute selection);
- financial_data/Alternative_research/tags_list.py (reported-concept set);
- the unnamed module "2 methods.py" (granularity_difference, the
  depth-difference structural scorer).

Embedding conventions:
- SEC/JSON rows become Lean structures with `Option` fields for keys that may
  be absent; Python string comparison (code-point lexicographic) is Lean's
  `String` order; Python dicts become association lists with insertion-order
  semantics (`dictGet`, `dictInsert`, `dictAppend`).
- Python's truthiness tests on these fields are translated at each use site
  (e.g. an integer fiscal year `fy` passes `fy and str(fy).isdigit()` exactly
  when it is present and nonnegative and nonzero).
- TF-IDF cosine scores are embedded exactly over `ℚ` as the *square* of the
  cosine, an order-isomorphic representation: squaring is strictly monotone on
  the nonnegative cosine values produced here, so rankings, ties and the
  `score < 1.0` test are preserved; the idf column weights are an explicit
  nonnegative weight parameter `w` (sklearn's smooth idf, which equals 1 on a
  corpus in which every term occurs in every document).
- Fallible Python operations (`dict[key]` lookups, `list[i]` indexing) return
  `Except PyError`.
-/

set_option maxRecDepth 4000

namespace Spec2Proof

/-- Python string comparison `a < b` (code-point lexicographic), on the
underlying character lists.  Semantically this is the core `String.lt`, but
written by structural recursion so that concrete comparisons reduce inside the
kernel. -/
def pyStrLtB : List Char → List Char → Bool
  | [], [] => false
  | [], _ :: _ => true
  | _ :: _, [] => false
  | a :: as, b :: bs =>
    if a.toNat < b.toNat then true
    else if b.toNat < a.toNat then false
    else pyStrLtB as bs

/-- Python `a < b` on strings. -/
def pyLt (a b : String) : Bool := pyStrLtB a.data b.data

/-- Python `a <= b` on strings: `not (b < a)` for this total order. -/
def pyLe (a b : String) : Bool := !(pyStrLtB b.data a.data)

instance instDecEqExcept {ε α : Type} [DecidableEq ε] [DecidableEq α] :
    DecidableEq (Except ε α) := fun x y =>
  match x, y with
  | .error a, .error b =>
    if h : a = b then isTrue (by rw [h]) else isFalse (by simp [h])
  | .error _, .ok _ => isFalse (by simp)
  | .ok _, .error _ => isFalse (by simp)
  | .ok a, .ok b =>
    if h : a = b then isTrue (by rw [h]) else isFalse (by simp [h])

/-- A JSON scalar as found in SEC company-concept rows (`val` fields). -/
inductive JVal where
  | num (q : ℚ)
  | str (s : String)
deriving DecidableEq, Repr

/-- One raw row of an SEC company-concept response, after `fetch_concept` has
flattened the per-unit lists and written the unit into `uom`.  The JSON key
`end` is rendered `endDate` (`end` is a Lean keyword). -/
structure SecRow where
  val : Option JVal
  uom : Option String
  fy : Option Int
  fp : Option String
  form : Option String
  filed : Option String
  accn : Option String
  endDate : Option String
  start : Option String
deriving DecidableEq, Repr

/-- The dictionary built by `sec_row_to_fact`, plus the `carry_from_fy` key the
carry branch of `main` may add later (absent everywhere else). -/
structure Fact where
  tag : String
  value : Option JVal
  unit : Option String
  fy : Option Int
  fp : Option String
  form : Option String
  filed : Option String
  accn : Option String
  endDate : Option String
  start : Option String
  carry_from_fy : Option Int := none
deriving DecidableEq, Repr

/-- Function `sec_row_to_fact` from final data extractor.py. -/
def sec_row_to_fact (tag : String) (r : SecRow) : Fact :=
  { tag := tag, value := r.val, unit := r.uom, fy := r.fy, fp := r.fp,
    form := r.form, filed := r.filed, accn := r.accn, endDate := r.endDate,
    start := r.start }

/-- Constant `BASE_METRICS` from final data extractor.py (METRICS minus FreeCashFlow). -/
def BASE_METRICS : List String :=
  ["Revenues","NetIncomeLoss","EarningsPerShareBasic","EarningsPerShareDiluted",
   "OperatingIncomeLoss","GrossProfit","ResearchAndDevelopmentExpense",
   "SellingGeneralAndAdministrativeExpense","Assets","Liabilities","StockholdersEquity",
   "CashAndCashEquivalentsAtCarryingValue","NetCashProvidedByUsedInOperatingActivities",
   "PaymentsToAcquirePropertyPlantAndEquipment","LongTermDebt","ShortTermInvestments",
   "CostOfRevenue","OperatingExpenses","IncomeTaxExpenseBenefit","AccountsReceivableNetCurrent"]

/-- Lookup into the `PREFERRED_UNITS` table. -/
def PREFERRED_UNITS (metric : String) : Option String :=
  if metric = "EarningsPerShareBasic" then some "USD/shares"
  else if metric = "EarningsPerShareDiluted" then some "USD/shares"
  else none

def DEFAULT_UNIT : String := "USD"

/-- Lookup into the `METRIC_PERIOD_TYPE` table (duration vs instant expectations). -/
def METRIC_PERIOD_TYPE (metric : String) : Option String :=
  if metric ∈ ["Revenues","NetIncomeLoss","EarningsPerShareBasic",
      "EarningsPerShareDiluted","OperatingIncomeLoss","GrossProfit",
      "ResearchAndDevelopmentExpense","SellingGeneralAndAdministrativeExpense",
      "NetCashProvidedByUsedInOperatingActivities",
      "PaymentsToAcquirePropertyPlantAndEquipment",
      "CostOfRevenue","OperatingExpenses","IncomeTaxExpenseBenefit"] then
    some "duration"
  else if metric ∈ ["Assets","Liabilities","StockholdersEquity",
      "CashAndCashEquivalentsAtCarryingValue","ShortTermInvestments",
      "AccountsReceivableNetCurrent","LongTermDebt"] then
    some "instant"
  else none

def expected_period_type (metric : String) : Option String :=
  METRIC_PERIOD_TYPE metric

/-- The test `fy and str(fy).isdigit() and int(fy) >= 2014` of
`entries_since_2014`, for an integer-typed `fy` field: `fy` truthy rules out
`0` and absence, `str(fy).isdigit()` rules out negatives (the minus sign is not
a digit), and the numeric comparison is kept as is. -/
def fy_ok (fy : Option Int) : Bool :=
  match fy with
  | some n => n ≠ 0 && 0 ≤ n && 2014 ≤ n
  | none => false

/-- Function `entries_since_2014` from final data extractor.py (a generator; embedded as
the list of yielded rows, in order). -/
def entries_since_2014 (rows : List SecRow) : List SecRow :=
  rows.filter fun r => fy_ok r.fy && (r.form == some "10-K" || r.form == some "10-Q")

/-- The expression `"duration" if r.get("start") else "instant"` of
`filter_rows_for_metric`: Python truthiness makes an empty-string start
instantaneous as well. -/
def period_type_of (r : SecRow) : String :=
  match r.start with
  | some s => if s = "" then "instant" else "duration"
  | none => "instant"

/-- Function `unit_ok_for_metric`: `PREFERRED_UNITS.get(metric) or DEFAULT_UNIT` — both
configured overrides are nonempty strings, so the `or` is `getD`. -/
def unit_ok_for_metric (metric : String) (uom : Option String) : Bool :=
  let want := (PREFERRED_UNITS metric).getD DEFAULT_UNIT
  uom == some want

/-- Function `filter_rows_for_metric`: the guard `if et and pt != et: continue` only
filters when the metric has a (nonempty) expected period type. -/
def filter_rows_for_metric (metric : String) (rows : List SecRow) : List SecRow :=
  rows.filter fun r =>
    (match expected_period_type metric with
     | some et => period_type_of r == et
     | none => true) && unit_ok_for_metric metric r.uom

/-- Python-dict lookup on an association list. -/
def dictGet {α : Type} (m : List (Int × α)) (k : Int) : Option α :=
  (m.find? fun p => p.1 = k).map Prod.snd

/-- Python-dict write `m[k] = v`: overwrite in place if the key exists,
otherwise append (insertion order preserved). -/
def dictInsert {α : Type} (m : List (Int × α)) (k : Int) (v : α) : List (Int × α) :=
  if m.any (fun p => p.1 = k) then m.map (fun p => if p.1 = k then (k, v) else p)
  else m ++ [(k, v)]

/-- Python `defaultdict(list)` append `m[k].append(v)`. -/
def dictAppend {α : Type} (m : List (Int × List α)) (k : Int) (v : α) : List (Int × List α) :=
  if m.any (fun p => p.1 = k) then m.map (fun p => if p.1 = k then (k, p.2 ++ [v]) else p)
  else m ++ [(k, [v])]

/-- One step of the `choose_latest_filed_per_fy` loop body. -/
def clf_step (by_fy : List (Int × SecRow)) (r : SecRow) : List (Int × SecRow) :=
  match r.fy with
  | none => by_fy
  | some fy =>
    match dictGet by_fy fy with
    | none => dictInsert by_fy fy r
    | some prev =>
      if r.form = some "10-K" ∧ prev.form ≠ some "10-K" then dictInsert by_fy fy r
      else if pyLt (prev.filed.getD "") (r.filed.getD "") then dictInsert by_fy fy r
      else by_fy

/-- Function `choose_latest_filed_per_fy` from final data extractor.py.  The `metric`
argument is unused in the source as well.  Rows whose `fy` is not an integer
are skipped (`isinstance(fy, int)`); an existing entry is replaced by a 10-K
when the incumbent is not a 10-K, else by a strictly later-filed row. -/
def choose_latest_filed_per_fy (rows : List SecRow) (metric : String) :
    List (Int × SecRow) :=
  let _ := metric
  rows.foldl clf_step []

/-- Function `frequency_from_form` from final data extractor.py. -/
def frequency_from_form (form : Option String) : Option String :=
  if form = some "10-K" then some "annual"
  else if form = some "10-Q" then some "quarterly"
  else none

/-- Function `pick_best_alternative_for_fy` from final data extractor.py: among the
already-collected alternatives of a fiscal year, a stable ascending sort on
`a.get("filed") or ""` followed by `cand[-1]`.  The unused `metric` argument is
kept from the source. -/
def pick_best_alternative_for_fy (alts_fy_map : List (Int × List Fact))
    (fy : Int) (metric : String) : Option Fact :=
  let _ := metric
  let cand := (dictGet alts_fy_map fy).getD []
  match cand with
  | [] => none
  | _ =>
    (cand.insertionSort fun a b =>
      pyLe (a.filed.getD "") (b.filed.getD "") = true).getLast?

/-- The loop body of `nearest_fy_with_fact`: fold the sorted pool carrying
`(best, bestdist)`, skipping the year itself, updating on strictly smaller
absolute distance. -/
def nearest_step (fy : Int) (s : Option Int × Int) (k : Int) : Option Int × Int :=
  if k = fy then s
  else if |k - fy| < s.2 then (some k, |k - fy|) else s

/-- Function `nearest_fy_with_fact` from final data extractor.py, over the keys of the
`fy_to_fact` dict: pool sorted ascending, `bestdist` initialized to `10**9`,
strict improvement only (so the earlier year of two equidistant years wins). -/
def nearest_fy_with_fact (fy : Int) (fy_to_fact : List (Int × Fact)) : Option Int :=
  match fy_to_fact with
  | [] => none
  | _ =>
    let pool := (fy_to_fact.map Prod.fst).insertionSort (· ≤ ·)
    (pool.foldl (nearest_step fy) (none, 10 ^ 9)).1

/-- One step of building the `available` dict of the carry branch in `main`:
for a fiscal year with a nonempty alternatives list,
`available.setdefault(k, lst[-1])` (the last stored alternative, added only
when the year is not already present). -/
def carry_step (av : List (Int × Fact)) (p : Int × List Fact) : List (Int × Fact) :=
  match p.2.getLast? with
  | none => av
  | some last =>
    if (dictGet av p.1).isSome then av else av ++ [(p.1, last)]

/-- The `available` dict of the carry branch in `main`: the primary map copied
first, then `carry_step` over the alternative lists. -/
def available_for_carry (primaryMap : List (Int × Fact))
    (altMap : List (Int × List Fact)) : List (Int × Fact) :=
  altMap.foldl carry_step primaryMap

/-- One per-(metric, fiscal-year) cell of `row[metric]` as built by `main`:
`chosen` is the `{"source": source, **chosen}` dict (source string paired with
the fact), alongside the `primary` fact and the collected `alternatives`. -/
structure Cell where
  chosen : Option (String × Fact)
  primary : Option Fact
  alternatives : List Fact
deriving DecidableEq, Repr

/-- The primary → alternative → carry cascade of `main` (step 2), for one
metric and one fiscal year.  In the carry branch the chosen fact is the copied
dict with `carry_from_fy` set to the nearest year found. -/
def choose_for_fy (primaryMap : List (Int × Fact)) (altMap : List (Int × List Fact))
    (fy : Int) (metric : String) (allowCarry : Bool) : Cell :=
  let primary := dictGet primaryMap fy
  let best_alt := pick_best_alternative_for_fy altMap fy metric
  let chosen : Option (String × Fact) :=
    match primary with
    | some p => some ("primary", p)
    | none =>
      match best_alt with
      | some a => some ("alternative", a)
      | none =>
        if allowCarry then
          let available := available_for_carry primaryMap altMap
          match nearest_fy_with_fact fy available with
          | some k =>
            match dictGet available k with
            | some f => some ("carried", { f with carry_from_fy := some k })
            | none => none
          | none => none
        else none
  { chosen := chosen, primary := primary,
    alternatives := (dictGet altMap fy).getD [] }

/-- The record built by step 3 of `main` (FreeCashFlow derivation). -/
structure Derived where
  value : Option ℚ
  unit : String
  formula : String
  derived_from : List (String × (String × Fact))
  source : String
deriving DecidableEq, Repr

/-- Step 3 of `main`: derive FreeCashFlow from the chosen OCF and CapEx cells.
`derived_from` records whichever inputs are available (each as
`{"metric": name, **chosen}`); the value is set only when both chosen values
are numeric, to `ocf.value - abs(capex.value)`. -/
def derive_fcf (ocf capex : Option (String × Fact)) : Derived :=
  let df :=
    (match ocf with
     | some c => [("NetCashProvidedByUsedInOperatingActivities", c)]
     | none => []) ++
    (match capex with
     | some c => [("PaymentsToAcquirePropertyPlantAndEquipment", c)]
     | none => [])
  let value : Option ℚ :=
    match ocf, capex with
    | some oc, some cc =>
      match oc.2.value, cc.2.value with
      | some (.num a), some (.num b) => some (a - |b|)
      | _, _ => none
    | _, _ => none
  { value := value, unit := "USD", formula := "FreeCashFlow = OCF - abs(CapEx)",
    derived_from := df, source := "derived" }

/-- Python exceptions reachable in the embedded resolver code. -/
inductive PyError where
  | keyError
  | indexError
deriving DecidableEq, Repr

/-- Number of occurrences of token `t` in a document, as a rational. -/
def tokCount (xs : List String) (t : String) : ℚ :=
  ((xs.filter (· = t)).length : ℚ)

/-- Weighted inner product of the idf-scaled term-count vectors of two
documents: each coordinate is `count · w(t)`, so the product carries `w(t)^2`.
Summing over the deduplicated union of the two documents' tokens covers every
coordinate on which the product is nonzero. -/
def dotW (w : String → ℚ) (xs ys : List String) : ℚ :=
  ((xs ++ ys).dedup).foldl
    (fun acc t => acc + tokCount xs t * tokCount ys t * (w t) ^ 2) 0

/-- Exact embedding of the TF-IDF cosine similarity of
`cosine_similarity_selection.py`, represented as the cosine's square
(order-isomorphic on the nonnegative cosines produced from count vectors, and
equal to 1 exactly when the cosine is): `⟨x,y⟩² / (⟨x,x⟩·⟨y,y⟩)`.  Rational
division by zero is zero, matching sklearn's zero score for a zero vector. -/
def scoreQ (w : String → ℚ) (target cand : List String) : ℚ :=
  (dotW w target cand) ^ 2 / (dotW w target target * dotW w cand cand)

/-- Lines 12–38 of `choose_revenue_substitute`: look the target up in the
taxonomy texts (a missing target is a Python `KeyError`), keep the reported
tags that have taxonomy text — in reported order, exactly the `tag_list` /
`corpus` loop — score each against the target, and stable-sort descending by
score (Python's `sorted(..., reverse=True)` keeps the original order of equal
scores), truncating to `top_n + 1`.  Texts are taken post-tokenization
(`_normalize` + the vectorizer's token splitting), as token lists. -/
def substituteRanking (w : String → ℚ) (texts : String → Option (List String))
    (reported : List String) (target_label : String) (top_n : ℕ) :
    Except PyError (List (String × ℚ)) :=
  match texts target_label with
  | none => .error .keyError
  | some ttoks =>
    let pairs := reported.filterMap fun t => (texts t).map fun toks => (t, toks)
    let scored := pairs.map fun p => (p.1, scoreQ w ttoks p.2)
    .ok ((scored.insertionSort fun a b => b.2 ≤ a.2).take (top_n + 1))

/-- Function `choose_revenue_substitute` from cosine_similarity_selection.py: `None`
when no reported tag has taxonomy text, otherwise
`ranking[0][0] if ranking[0][1] < 1.0 else ranking[1][0]` — where indexing a
missing second entry is a Python `IndexError`.  (The source would also raise
inside sklearn if every document of the corpus were empty of tokens; no claim
exercises that corner and it is not modelled.) -/
def choose_revenue_substitute (w : String → ℚ) (texts : String → Option (List String))
    (reported : List String) (target_label : String) (top_n : ℕ) :
    Except PyError (Option String) :=
  match substituteRanking w texts reported target_label top_n with
  | .error e => .error e
  | .ok ranking =>
    match ranking with
    | [] => .ok none
    | r0 :: rest =>
      if r0.2 < 1 then .ok (some r0.1)
      else
        match rest with
        | r1 :: _ => .ok (some r1.1)
        | [] => .error .indexError

/-- The expression `(choose_revenue_substitute(...) or [])[:24]` of `main`,
followed by iteration: `None` gives the empty list; a returned tag string is
sliced to its first 24 characters and iterated character by character, each
character standing as a one-character concept name. -/
def slice24 (sub : Option String) : List String :=
  match sub with
  | none => []
  | some s => (s.toList.take 24).map fun c => String.mk [c]

/-- The primary half of the per-metric loop of `main` (step 1): fetch, filter
to eligible rows, pick per fiscal year, convert to facts. -/
def collect_primary (fetch : String → List SecRow) (metric : String) :
    List (Int × Fact) :=
  let rows := filter_rows_for_metric metric (entries_since_2014 (fetch metric))
  (choose_latest_filed_per_fy rows metric).map fun p => (p.1, sec_row_to_fact metric p.2)

/-- The alternatives half of the per-metric loop of `main` (step 1): for each
alternative tag in order — skipping empty tags and the metric itself — fetch
its rows, apply the original metric's filters, pick per fiscal year, and append
the facts to the per-year lists. -/
def collect_alts (fetch : String → List SecRow) (metric : String)
    (alt_tags : List String) : List (Int × List Fact) :=
  alt_tags.foldl (fun m alt_tag =>
    if alt_tag = "" ∨ alt_tag = metric then m
    else
      match fetch alt_tag with
      | [] => m
      | rows =>
        match filter_rows_for_metric metric (entries_since_2014 rows) with
        | [] => m
        | alt_rows =>
          (choose_latest_filed_per_fy alt_rows metric).foldl
            (fun m p => dictAppend m p.1 (sec_row_to_fact alt_tag p.2)) m) []

/-- The company-concept fetches `main` issues for one metric, in order: the
metric itself (primary), then each sliced alternative tag that passes the
`if not alt_tag or alt_tag == metric: continue` guard (the fetch happens before
the emptiness checks on its result).  HTTP-level retries inside
`fetch_concept` count as one logical fetch. -/
def metricFetches (w : String → ℚ) (texts : String → Option (List String))
    (reported : List String) (metric : String) : Except PyError (List String) :=
  match choose_revenue_substitute w texts reported metric 24 with
  | .error e => .error e
  | .ok sub => .ok (metric :: (slice24 sub).filter fun t => ¬(t = "" ∨ t = metric))

/-- The full company-concept fetch trace of one entity's run of `main`:
the concatenation of every base metric's fetches, in metric order. -/
def fetchTrace (w : String → ℚ) (texts : String → Option (List String))
    (reported : List String) : List String → Except PyError (List String)
  | [] => .ok []
  | m :: ms =>
    match metricFetches w texts reported m with
    | .error e => .error e
    | .ok l =>
      match fetchTrace w texts reported ms with
      | .error e => .error e
      | .ok rest => .ok (l ++ rest)

/-- One `us-gaap` node of a company-facts response: its per-unit row lists. -/
structure GaapNode where
  units : List (String × List SecRow)
deriving DecidableEq, Repr

/-- Function `tags_list` from tags_list.py: every reported tag except `"Revenues"`
(skipped unconditionally) that has, under some unit, a row with
`int(r.get("fy", 0)) >= 2014`; collected as a set and returned sorted.  The
set is embedded as first-occurrence collection followed by an ascending sort
(string order is code-point lexicographic in both languages). -/
def tags_list (facts : List (String × GaapNode)) : List String :=
  let tags := facts.foldl (fun acc p =>
    if p.1 = "Revenues" then acc
    else if p.2.units.any (fun u => u.2.any fun r => 2014 ≤ r.fy.getD 0) then
      (if p.1 ∈ acc then acc else acc ++ [p.1])
    else acc) []
  tags.insertionSort fun a b => pyLe a b = true

/-- Python-dict lookup on a string-keyed association list. -/
def dictGetS {α : Type} (m : List (String × α)) (k : String) : Option α :=
  (m.find? fun p => p.1 = k).map Prod.snd

/-- A character matched by the `[a-z0-9]*` tail of the camel-case segment
pattern `[A-Z][a-z0-9]*` (ASCII, as in the source regex). -/
def isCamelTail (c : Char) : Bool := c.isLower || c.isDigit

/-- Left-to-right scanner realizing `re.findall(r"[A-Z][a-z0-9]*", ...)`:
`seg` is the current match accumulated in reverse (`none` while outside a
match), `acc` the finished matches in reverse.  An uppercase character always
starts a fresh match (the `[a-z0-9]*` tail cannot consume it), a lowercase
letter or digit extends the current match and is skipped outside one, and any
other character ends the current match and is skipped.  Structural recursion
on the character list keeps concrete runs kernel-reducible. -/
def camelGo (seg : Option (List Char)) (acc : List String) :
    List Char → List String
  | [] =>
    (match seg with
     | some s => String.mk s.reverse :: acc
     | none => acc).reverse
  | c :: rest =>
    if c.isUpper then
      camelGo (some [c])
        (match seg with
         | some s => String.mk s.reverse :: acc
         | none => acc) rest
    else if isCamelTail c then
      match seg with
      | some s => camelGo (some (c :: s)) acc rest
      | none => camelGo none acc rest
    else
      camelGo none
        (match seg with
         | some s => String.mk s.reverse :: acc
         | none => acc) rest

/-- Embedding of `re.findall(r"[A-Z][a-z0-9]*", target_tag)`: each match is an ASCII
uppercase letter followed by the maximal run of lowercase letters and digits;
characters matching neither are skipped. -/
def camelParts (l : List Char) : List String := camelGo none [] l

/-- The generator
`(depths["".join(parts[:i])] for i in range(len(parts)-1, 0, -1) if ...)` with
`next(..., None)`: the depth of the longest strict camel-prefix of the target
present in the depth map, walking `i` from `len(parts) - 1` down to `1`. -/
def prefixSearch (depths : List (String × ℕ)) (parts : List String) :
    ℕ → Option ℕ
  | 0 => none
  | i + 1 =>
    match dictGetS depths (String.join (parts.take (i + 1))) with
    | some d => some d
    | none => prefixSearch depths parts i

/-- Embedding of `sorted(depths.values())[len(depths)//2] if depths else None`: the upper
median of all known depths. -/
def medianFallback (depths : List (String × ℕ)) : Option ℕ :=
  match depths with
  | [] => none
  | _ => ((depths.map Prod.snd).insertionSort (· ≤ ·)).get? (depths.length / 2)

/-- The reference-depth computation of `granularity_difference`: the target's
own depth if present, else the longest-camel-prefix depth, else the median
fallback (`none` exactly when no depth can be established at all). -/
def refDepth (depths : List (String × ℕ)) (target_tag : String) : Option ℕ :=
  match dictGetS depths target_tag with
  | some d => some d
  | none =>
    let parts := camelParts target_tag.toList
    match prefixSearch depths parts (parts.length - 1) with
    | some d => some d
    | none => medianFallback depths

/-- Function `granularity_difference` from the unnamed module "2 methods.py" (the
depth-difference structural scorer): score each reported candidate that has a
depth by `abs(depths[t] - ref)`, sort ascending by gap (Python's stable sort:
equal gaps keep the order in which `reported` is iterated — the source passes a
Python `set`, embedded here as the list of its iteration order), take `n`. -/
def granularity_difference (depths : List (String × ℕ)) (reported : List String)
    (target_tag : String) (n : ℕ) : List (String × ℕ) :=
  match refDepth depths target_tag with
  | none => []
  | some ref =>
    let cands := reported.filterMap fun t =>
      (dictGetS depths t).map fun d => (t, ((d : Int) - (ref : Int)).natAbs)
    (cands.insertionSort fun a b => a.2 ≤ b.2).take n

/-! Concrete instances used by the witnesses and counterexamples below. -/

/-- Uniform idf weights.  On any corpus in which every term occurs in every
document — the case in every concrete instance below that relies on exact
scores — sklearn's smooth idf `ln((1+n)/(1+df)) + 1` is exactly 1, so these
weights are the actual ones. -/
def w1 : String → ℚ := fun _ => 1

/-- An eligible annual row for fiscal year 2020 filed 2020-01-15. -/
def c1_rowK : SecRow :=
  { val := some (.num 100), uom := some "USD", fy := some 2020, fp := some "FY",
    form := some "10-K", filed := some "2020-01-15", accn := some "a-1",
    endDate := some "2019-12-31", start := some "2019-01-01" }

/-- An eligible quarterly row for the same fiscal year, filed later
(2020-03-01). -/
def c1_rowQ : SecRow :=
  { c1_rowK with
    form := some "10-Q", filed := some "2020-03-01",
    fp := some "Q1", accn := some "a-2" }

/-- Taxonomy texts in which two reported concepts carry exactly the target's
text (near-duplicate concepts). -/
def c2texts : String → Option (List String) := fun t =>
  if t = "Revenues" ∨ t = "RevenueDupA" ∨ t = "RevenueDupB" then some ["revenue"]
  else none

/-- Taxonomy texts for the alternative-collection counterexample. -/
def c3texts : String → Option (List String) := fun t =>
  if t = "Revenues" then some ["revenue"]
  else if t = "SalesRevenueNet" then some ["revenue", "net"]
  else none

/-- An eligible duration row for fiscal year 2020. -/
def c3row : SecRow :=
  { val := some (.num 55), uom := some "USD", fy := some 2020, fp := some "FY",
    form := some "10-K", filed := some "2021-02-01", accn := some "a-3",
    endDate := some "2020-12-31", start := some "2020-01-01" }

/-- A filings provider with records under the resolver candidate
`"SalesRevenueNet"` and under the one-character concept `"S"`, and nothing
under the target metric itself. -/
def c3fetch : String → List SecRow := fun t =>
  if t = "S" ∨ t = "SalesRevenueNet" then [c3row] else []

/-- The chosen operating-cash-flow cell used by the derivation witness. -/
def c6oc : String × Fact :=
  ("primary", sec_row_to_fact "NetCashProvidedByUsedInOperatingActivities"
    { c1_rowK with val := some (.num 100) })

/-- The chosen capital-expenditure cell (negative value) used by the
derivation witness. -/
def c6cc : String × Fact :=
  ("primary", sec_row_to_fact "PaymentsToAcquirePropertyPlantAndEquipment"
    { c1_rowK with val := some (.num (-30)) })

/-- Taxonomy texts in which every tag is its own single token. -/
def c9texts : String → Option (List String) := fun t => some [t]

/-- The fetch trace `main` issues for reported set `["Zxq"]` under `c9texts`:
every metric's substitute is `"Zxq"`, sliced to the characters Z, x, q. -/
def c9trace : List String := BASE_METRICS.flatMap fun m => [m, "Z", "x", "q"]

/-- A company-facts node with a recent (fiscal year 2024) row. -/
def c10recent : GaapNode :=
  { units := [("USD", [{ c1_rowK with fy := some 2024 }])] }

/-- A company-facts node whose rows all predate the 2014 cutoff. -/
def c10old : GaapNode :=
  { units := [("USD", [{ c1_rowK with fy := some 2010 }])] }

/-- Company facts that do report `"Revenues"` recently, alongside two other
recent tags and one stale tag. -/
def c10facts : List (String × GaapNode) :=
  [("Revenues", c10recent), ("NetIncomeLoss", c10recent),
   ("Assets", c10recent), ("DeprecatedThing", c10old)]

/-! Theorems. -/

/-- C1: evaluation of `choose_latest_filed_per_fy` at the failing input.  Both
rows are eligible for fiscal year 2020 and the 10-K is iterated first; the
docstring and the claim demand the annual (10-K) record be preferred when both
forms exist for the year, but the code replaces the already-selected 10-K with
the later-filed 10-Q, so the year's primary candidate ends up quarterly. -/
theorem c1_annual_preference_violated :
    filter_rows_for_metric "Revenues" (entries_since_2014 [c1_rowK, c1_rowQ]) =
      [c1_rowK, c1_rowQ] ∧
    c1_rowK.form = some "10-K" ∧ c1_rowQ.form = some "10-Q" ∧
    c1_rowK.fy = some 2020 ∧ c1_rowQ.fy = some 2020 ∧
    (dictGet (choose_latest_filed_per_fy [c1_rowK, c1_rowQ] "Revenues") 2020).map
      SecRow.form = some (some "10-Q") := by
  decide

/-- C2 counterexample: two reported concepts carry text identical to the
target, so both score 1; the degenerate-match rule skips the first but returns
the second — a concept with text identical to the target — as the top
recommendation, contrary to the claim that such a concept is never returned. -/
theorem c2_counterexample :
    choose_revenue_substitute w1 c2texts ["RevenueDupA", "RevenueDupB"]
      "Revenues" 5 = .ok (some "RevenueDupB") ∧
    c2texts "RevenueDupB" = c2texts "Revenues" ∧
    c2texts "RevenueDupB" = some ["revenue"] := by
  refine ⟨?_, by decide, by decide⟩
  simp +decide [choose_revenue_substitute, substituteRanking, c2texts, w1,
    scoreQ, dotW, tokCount, List.dedup, List.foldl, List.filter,
    List.insertionSort, List.orderedInsert]

/-- C7 counterexample: when the target concept has no taxonomy text, the
resolver raises a `KeyError` (from `texts[target_label]`) instead of reporting
an empty no-candidates result. -/
theorem c7_counterexample :
    choose_revenue_substitute w1 (fun _ => none) ["SomeTag"] "Revenues" 5 =
      .error .keyError ∧
    (Except.error PyError.keyError : Except PyError (Option String)) ≠ .ok none := by
  decide

/-- C8 counterexample: two candidates tie at gap 2 for a target of depth 4,
and the output keeps the order in which the reported set is iterated
(`TagB` before `TagA`), not candidate-identifier order (`TagA` < `TagB`). -/
theorem c8_counterexample :
    granularity_difference [("Tgt", 4), ("TagB", 2), ("TagA", 2)]
      ["TagB", "TagA"] "Tgt" 5 = [("TagB", 2), ("TagA", 2)] ∧
    pyLt "TagA" "TagB" = true := by
  decide

/-- C9 counterexample: with one reported concept `"Zxq"`, every one of the 20
base metrics resolves to substitute `"Zxq"`, whose character slices Z, x, q are
fetched again for every metric — the run fetches the (entity, `"Z"`) pair 20
times instead of once, so the fetch boundary is not memoizing. -/
theorem c9_counterexample :
    fetchTrace w1 c9texts ["Zxq"] BASE_METRICS = .ok c9trace ∧
    ¬ c9trace.Nodup ∧ c9trace.count "Z" = 20 := by
  refine ⟨?_, by decide, by decide⟩
  simp +decide [fetchTrace, metricFetches, choose_revenue_substitute,
    substituteRanking, slice24, scoreQ, dotW, tokCount, c9texts, w1,
    BASE_METRICS, c9trace, List.dedup, List.foldl, List.filter,
    List.filterMap, List.insertionSort, List.orderedInsert]

/-- C3 counterexample: the target metric has no eligible primary rows for
fiscal year 2020, the resolver ranks the single candidate
`"SalesRevenueNet"` (score one half), which does have eligible records — yet
the engine slices the substitute string into characters, collects records under
the one-character concept `"S"`, and the chosen alternative fact carries
concept `"S"`, which is not one of the resolver's ranked candidates. -/
theorem c3_counterexample :
    substituteRanking w1 c3texts ["SalesRevenueNet"] "Revenues" 24 =
      .ok [("SalesRevenueNet", 1 / 2)] ∧
    choose_revenue_substitute w1 c3texts ["SalesRevenueNet"] "Revenues" 24 =
      .ok (some "SalesRevenueNet") ∧
    collect_primary c3fetch "Revenues" = [] ∧
    filter_rows_for_metric "Revenues" (entries_since_2014 (c3fetch "SalesRevenueNet")) =
      [c3row] ∧
    (choose_for_fy (collect_primary c3fetch "Revenues")
        (collect_alts c3fetch "Revenues" (slice24 (some "SalesRevenueNet")))
        2020 "Revenues" true).chosen =
      some ("alternative", sec_row_to_fact "S" c3row) ∧
    "S" ∉ ["SalesRevenueNet"] := by
  have hrank : substituteRanking w1 c3texts ["SalesRevenueNet"] "Revenues" 24 =
      .ok [("SalesRevenueNet", 1 / 2)] := by
    simp +decide [substituteRanking, c3texts, w1, scoreQ, dotW, tokCount,
      List.dedup, List.foldl, List.filter, List.filterMap,
      List.insertionSort, List.orderedInsert]
    norm_num
  have hsub : choose_revenue_substitute w1 c3texts ["SalesRevenueNet"] "Revenues" 24 =
      .ok (some "SalesRevenueNet") := by
    rw [choose_revenue_substitute, hrank]
    norm_num
  refine ⟨hrank, hsub, by decide, by decide, by decide, by decide⟩

/-- C6: the derived FreeCashFlow value exists exactly when both reconciled
inputs are present with numeric values, in which case it is the operating cash
flow minus the absolute value of capital expenditures; `derived_from` lists
precisely the available inputs; and the derivation is a pure function of the
two inputs (recomputation yields the same record).  The embedding is total, so
no error is raised on missing or non-numeric inputs. -/
theorem c6_fcf_derivation (ocf capex : Option (String × Fact)) :
    (∀ q : ℚ, (derive_fcf ocf capex).value = some q ↔
      ∃ c1 c2 a b, ocf = some c1 ∧ capex = some c2 ∧
        c1.2.value = some (.num a) ∧ c2.2.value = some (.num b) ∧ q = a - |b|) ∧
    (∀ m c, (m, c) ∈ (derive_fcf ocf capex).derived_from ↔
      (m = "NetCashProvidedByUsedInOperatingActivities" ∧ ocf = some c) ∨
      (m = "PaymentsToAcquirePropertyPlantAndEquipment" ∧ capex = some c)) ∧
    (∀ o2 c2, o2 = ocf → c2 = capex → derive_fcf o2 c2 = derive_fcf ocf capex) := by
  refine ⟨?_, ?_, ?_⟩
  · intro q
    cases ocf with
    | none => simp [derive_fcf]
    | some c1 =>
      cases capex with
      | none => simp [derive_fcf]
      | some c2 =>
        cases h1 : c1.2.value with
        | none => simp [derive_fcf, h1]
        | some v1 =>
          cases v1 with
          | str s => simp [derive_fcf, h1]
          | num a =>
            cases h2 : c2.2.value with
            | none => simp [derive_fcf, h1, h2]
            | some v2 =>
              cases v2 with
              | str s => simp [derive_fcf, h1, h2]
              | num b =>
                simp only [derive_fcf, h1, h2, Option.some.injEq]
                constructor
                · intro hq
                  exact ⟨c1, c2, a, b, rfl, rfl, h1, h2, hq.symm⟩
                · rintro ⟨d1, d2, a', b', he1, he2, hv1, hv2, hq⟩
                  cases he1; cases he2
                  rw [h1] at hv1; rw [h2] at hv2
                  cases hv1; cases hv2
                  exact hq.symm
  · intro m c
    cases ocf <;> cases capex <;>
      simp [derive_fcf, And.comm, eq_comm]
  · intro o2 c2 h1 h2
    rw [h1, h2]

/-- Witness for the derivation theorem at concrete inputs: operating cash flow
100 and capital expenditure −30 derive FreeCashFlow 70. -/
theorem c6_fcf_derivation_witness :
    (derive_fcf (some c6oc) (some c6cc)).value = some 70 :=
  ((c6_fcf_derivation (some c6oc) (some c6cc)).1 70).mpr
    ⟨c6oc, c6cc, 100, -30, rfl, rfl, rfl, rfl, by norm_num⟩

/-- C5: a row survives the eligibility filters for a metric with expected
period type `et` exactly when it came from the fetched rows, its form is 10-K
or 10-Q, its fiscal year is present and at least 2014, its period type —
duration when a (nonempty) start date is present, instant otherwise — equals
`et`, and its unit is the metric's preferred unit (the override when
configured, else the USD default). -/
theorem c5_eligibility_iff (metric et : String)
    (hmet : METRIC_PERIOD_TYPE metric = some et)
    (rows : List SecRow) (r : SecRow) (hstart : r.start ≠ some "") :
    r ∈ filter_rows_for_metric metric (entries_since_2014 rows) ↔
      (r ∈ rows ∧
       (r.form = some "10-K" ∨ r.form = some "10-Q") ∧
       (∃ n : Int, r.fy = some n ∧ 2014 ≤ n) ∧
       (if r.start.isSome then "duration" else "instant") = et ∧
       r.uom = some ((PREFERRED_UNITS metric).getD DEFAULT_UNIT)) := by
  have hpt : period_type_of r = if r.start.isSome then "duration" else "instant" := by
    cases hs : r.start with
    | none => simp [period_type_of, hs]
    | some s =>
      have : s ≠ "" := by
        intro h
        exact hstart (by rw [hs, h])
      simp [period_type_of, hs, this]
  have hfyiff : fy_ok r.fy = true ↔ ∃ n : Int, r.fy = some n ∧ 2014 ≤ n := by
    cases hfy : r.fy with
    | none => simp [fy_ok]
    | some n =>
      simp only [fy_ok, Bool.and_eq_true, decide_eq_true_eq, ne_eq,
        Bool.not_eq_true', decide_eq_false_iff_not, Option.some.injEq]
      constructor
      · rintro ⟨⟨h0, h1⟩, h2⟩
        exact ⟨n, rfl, h2⟩
      · rintro ⟨n', hn', h2⟩
        cases hn'
        refine ⟨⟨?_, ?_⟩, h2⟩ <;> omega
  have h1 : r ∈ entries_since_2014 rows ↔
      r ∈ rows ∧ fy_ok r.fy = true ∧ (r.form = some "10-K" ∨ r.form = some "10-Q") := by
    simp [entries_since_2014, List.mem_filter]
  have h2 : r ∈ filter_rows_for_metric metric (entries_since_2014 rows) ↔
      r ∈ entries_since_2014 rows ∧ period_type_of r = et ∧
        r.uom = some ((PREFERRED_UNITS metric).getD DEFAULT_UNIT) := by
    simp [filter_rows_for_metric, List.mem_filter, expected_period_type, hmet,
      unit_ok_for_metric]
  rw [h2, h1, hfyiff, hpt]
  tauto

/-- Witness for the eligibility characterization: the concrete 10-K row for
fiscal year 2020 is eligible for the duration metric `"Revenues"`. -/
theorem c5_eligibility_iff_witness :
    c1_rowK ∈ filter_rows_for_metric "Revenues" (entries_since_2014 [c1_rowK]) :=
  (c5_eligibility_iff "Revenues" "duration" rfl [c1_rowK] c1_rowK (by decide)).mpr
    (by refine ⟨by decide, by decide, ⟨2020, by decide, by decide⟩, by decide, by decide⟩)

/-! Order lemmas for the embedded Python string comparison. -/

theorem pyStrLtB_irrefl : ∀ l : List Char, pyStrLtB l l = false
  | [] => rfl
  | c :: l => by
    simp [pyStrLtB, pyStrLtB_irrefl l]

theorem pyStrLtB_asymm : ∀ a b : List Char,
    pyStrLtB a b = true → pyStrLtB b a = false
  | [], [] => by simp [pyStrLtB]
  | [], _ :: _ => fun _ => rfl
  | _ :: _, [] => by simp [pyStrLtB]
  | a :: as, b :: bs => by
    by_cases h1 : a.toNat < b.toNat
    · intro _
      have h2 : ¬ b.toNat < a.toNat := by omega
      simp [pyStrLtB, h1, h2]
    · by_cases h2 : b.toNat < a.toNat
      · simp [pyStrLtB, h1, h2]
      · simpa [pyStrLtB, h1, h2] using pyStrLtB_asymm as bs

theorem pyStrLtB_trans : ∀ a b c : List Char,
    pyStrLtB a b = true → pyStrLtB b c = true → pyStrLtB a c = true
  | [], [], _ => by simp [pyStrLtB]
  | [], _ :: _, [] => by simp [pyStrLtB]
  | [], _ :: _, _ :: _ => by simp [pyStrLtB]
  | _ :: _, [], _ => by simp [pyStrLtB]
  | _ :: _, _ :: _, [] => by simp [pyStrLtB]
  | a :: as, b :: bs, c :: cs => by
    by_cases hab1 : a.toNat < b.toNat <;> by_cases hbc1 : b.toNat < c.toNat
    · have : a.toNat < c.toNat := by omega
      simp [pyStrLtB, this]
    · by_cases hbc2 : c.toNat < b.toNat
      · simp [pyStrLtB, hbc1, hbc2]
      · have heq : b.toNat = c.toNat := by omega
        have : a.toNat < c.toNat := by omega
        simp [pyStrLtB, this]
    · by_cases hab2 : b.toNat < a.toNat
      · simp [pyStrLtB, hab1, hab2]
      · have : a.toNat < c.toNat := by omega
        simp [pyStrLtB, this]
    · by_cases hab2 : b.toNat < a.toNat
      · simp [pyStrLtB, hab1, hab2]
      · by_cases hbc2 : c.toNat < b.toNat
        · simp [pyStrLtB, hbc1, hbc2]
        · have hac1 : ¬ a.toNat < c.toNat := by omega
          have hac2 : ¬ c.toNat < a.toNat := by omega
          simpa [pyStrLtB, hab1, hab2, hbc1, hbc2, hac1, hac2] using
            pyStrLtB_trans as bs cs

theorem pyStrLtB_tri : ∀ a b : List Char,
    pyStrLtB a b = true ∨ a = b ∨ pyStrLtB b a = true
  | [], [] => Or.inr (Or.inl rfl)
  | [], _ :: _ => Or.inl rfl
  | _ :: _, [] => Or.inr (Or.inr rfl)
  | a :: as, b :: bs => by
    by_cases h1 : a.toNat < b.toNat
    · exact Or.inl (by simp [pyStrLtB, h1])
    · by_cases h2 : b.toNat < a.toNat
      · exact Or.inr (Or.inr (by simp [pyStrLtB, h2]))
      · have hc : a = b := by
          have : a.toNat = b.toNat := by omega
          exact Char.eq_of_val_eq (UInt32.ext this)
        rcases pyStrLtB_tri as bs with h | h | h
        · exact Or.inl (by simp [pyStrLtB, h1, h2, h])
        · exact Or.inr (Or.inl (by rw [hc, h]))
        · exact Or.inr (Or.inr (by simp [pyStrLtB, h1, h2, hc, h]))

theorem pyLe_refl (a : String) : pyLe a a = true := by
  simp [pyLe, pyStrLtB_irrefl]

theorem pyLe_total (a b : String) : pyLe a b = true ∨ pyLe b a = true := by
  by_cases h : pyStrLtB b.data a.data = true
  · exact Or.inr (by simp [pyLe, pyStrLtB_asymm _ _ h])
  · exact Or.inl (by simp [pyLe, h])

theorem pyLe_trans (a b c : String) (h1 : pyLe a b = true) (h2 : pyLe b c = true) :
    pyLe a c = true := by
  simp only [pyLe, Bool.not_eq_true'] at h1 h2 ⊢
  by_cases h3 : pyStrLtB c.data a.data = true
  · rcases pyStrLtB_tri c.data b.data with h | h | h
    · rw [h] at h2
      exact absurd h2 (by simp)
    · rw [h] at h3
      rw [h3] at h1
      exact absurd h1 (by simp)
    · have hba := pyStrLtB_trans _ _ _ h h3
      rw [hba] at h1
      exact absurd h1 (by simp)
  · cases hb : pyStrLtB c.data a.data with
    | false => rfl
    | true => exact absurd hb h3

/-! Helper lemmas about the resolver ranking. -/

/-- Every entry of the computed ranking is a reported tag that has taxonomy
text (textless candidates are excluded, not scored as zero). -/
theorem substituteRanking_mem (w : String → ℚ) (texts : String → Option (List String))
    (reported : List String) (target : String) (n : ℕ)
    (rk : List (String × ℚ)) (p : String × ℚ)
    (hr : substituteRanking w texts reported target n = .ok rk) (hp : p ∈ rk) :
    p.1 ∈ reported ∧ (texts p.1).isSome := by
  rw [substituteRanking] at hr
  cases ht : texts target with
  | none => rw [ht] at hr; exact absurd hr (by simp)
  | some ttoks =>
    rw [ht] at hr
    simp only [Except.ok.injEq] at hr
    subst hr
    have hp1 := List.take_subset _ _ hp
    have hp2 : p ∈ (reported.filterMap fun t => (texts t).map fun toks => (t, toks)).map
        fun q => (q.1, scoreQ w ttoks q.2) :=
      ((List.perm_insertionSort _ _).mem_iff).mp hp1
    rcases List.mem_map.mp hp2 with ⟨q, hq, hqp⟩
    rcases List.mem_filterMap.mp hq with ⟨t, hts, htx⟩
    cases hx : texts t with
    | none => rw [hx] at htx; exact absurd htx (by simp)
    | some toks =>
      rw [hx] at htx
      have hq1 : q = (t, toks) := by simpa using htx.symm
      have hqt : q.1 = t := by rw [hq1]
      constructor
      · rw [← hqp, hqt]; exact hts
      · rw [← hqp, hqt, hx]; simp

/-- The tag returned by `choose_revenue_substitute` is always one of the
reported tags. -/
theorem choose_mem_reported (w : String → ℚ) (texts : String → Option (List String))
    (reported : List String) (target : String) (n : ℕ) (s : String)
    (h : choose_revenue_substitute w texts reported target n = .ok (some s)) :
    s ∈ reported := by
  rw [choose_revenue_substitute] at h
  cases hr : substituteRanking w texts reported target n with
  | error e => rw [hr] at h; exact absurd h (by simp)
  | ok ranking =>
    rw [hr] at h
    cases ranking with
    | nil => exact absurd h (by simp)
    | cons r0 rest =>
      dsimp only at h
      by_cases h0 : r0.2 < 1
      · rw [if_pos h0] at h
        simp only [Except.ok.injEq, Option.some.injEq] at h
        subst h
        exact (substituteRanking_mem w texts reported target n _ r0 hr
          (List.mem_cons_self _ _)).1
      · rw [if_neg h0] at h
        cases rest with
        | nil => exact absurd h (by simp)
        | cons r1 rest' =>
          simp only [Except.ok.injEq, Option.some.injEq] at h
          subst h
          exact (substituteRanking_mem w texts reported target n _ r1 hr
            (List.mem_cons_of_mem _ (List.mem_cons_self _ _))).1

theorem foldl_add_map (f : String → ℚ) :
    ∀ (l : List String) (init : ℚ),
      l.foldl (fun acc t => acc + f t) init = init + (l.map f).sum
  | [], init => by simp
  | t :: l, init => by
    simp only [List.foldl_cons, List.map_cons, List.sum_cons, foldl_add_map f l]
    ring

theorem dotW_eq_sum (w : String → ℚ) (xs ys : List String) :
    dotW w xs ys =
      (((xs ++ ys).dedup).map fun t => tokCount xs t * tokCount ys t * w t ^ 2).sum := by
  rw [dotW, foldl_add_map]
  simp

/-- A nonempty document has positive self inner product under positive
weights. -/
theorem dotW_self_pos (w : String → ℚ) (toks : List String) (hne : toks ≠ [])
    (hw : ∀ t, 0 < w t) : 0 < dotW w toks toks := by
  rw [dotW_eq_sum]
  apply List.sum_pos
  · intro x hx
    rcases List.mem_map.mp hx with ⟨t, ht, rfl⟩
    have htm : t ∈ toks := by
      have := List.mem_dedup.mp ht
      simpa using this
    have hc : 0 < tokCount toks t := by
      rw [tokCount]
      have hmf : t ∈ toks.filter (· = t) := List.mem_filter.mpr ⟨htm, by simp⟩
      have hlen : 0 < (toks.filter (· = t)).length :=
        List.length_pos.mpr (List.ne_nil_of_mem hmf)
      exact_mod_cast hlen
    have hwt := hw t
    positivity
  · intro hmap
    rw [List.map_eq_nil_iff] at hmap
    rw [List.dedup_eq_nil] at hmap
    exact hne (by simpa using hmap)

/-- A document with identical text to the target scores exactly 1 (the
degenerate-match score). -/
theorem scoreQ_self (w : String → ℚ) (toks : List String) (hne : toks ≠ [])
    (hw : ∀ t, 0 < w t) : scoreQ w toks toks = 1 := by
  have hd := dotW_self_pos w toks hne hw
  rw [scoreQ, pow_two, div_self (by positivity)]

/-- C2 amended: when the computed ranking has at least two entries and the
best-ranked candidate scores 1 (the degenerate match), the resolver skips it
and returns the second-ranked candidate; when the best candidate scores below
1 it is returned itself; and any candidate whose (tokenized) text is identical
to the target's scores exactly 1.  (When several candidates tie at score 1,
the returned second-ranked candidate can itself have identical text —
`c2_counterexample`.) -/
theorem c2_skip_rule (w : String → ℚ) (texts : String → Option (List String))
    (reported : List String) (target : String) (n : ℕ)
    (r0 r1 : String × ℚ) (rest : List (String × ℚ))
    (hrank : substituteRanking w texts reported target n = .ok (r0 :: r1 :: rest)) :
    (¬ r0.2 < 1 →
      choose_revenue_substitute w texts reported target n = .ok (some r1.1)) ∧
    (r0.2 < 1 →
      choose_revenue_substitute w texts reported target n = .ok (some r0.1)) ∧
    (∀ toks : List String, toks ≠ [] → (∀ t, 0 < w t) → scoreQ w toks toks = 1) := by
  refine ⟨?_, ?_, fun toks h hw => scoreQ_self w toks h hw⟩
  · intro h0
    rw [choose_revenue_substitute, hrank]
    dsimp only
    rw [if_neg h0]
  · intro h0
    rw [choose_revenue_substitute, hrank]
    dsimp only
    rw [if_pos h0]

/-- Witness for the skip rule at concrete inputs: with two candidates tied at
score 1 the second one is returned, and the identical-text score is 1. -/
theorem c2_skip_rule_witness :
    choose_revenue_substitute w1 c2texts ["RevenueDupA", "RevenueDupB"]
      "Revenues" 5 = .ok (some "RevenueDupB") ∧
    scoreQ w1 ["revenue"] ["revenue"] = 1 := by
  have hrank : substituteRanking w1 c2texts ["RevenueDupA", "RevenueDupB"]
      "Revenues" 5 = .ok [("RevenueDupA", 1), ("RevenueDupB", 1)] := by
    simp +decide [substituteRanking, c2texts, w1, scoreQ, dotW, tokCount,
      List.dedup, List.foldl, List.filter, List.filterMap,
      List.insertionSort, List.orderedInsert]
  have hthm := c2_skip_rule w1 c2texts ["RevenueDupA", "RevenueDupB"]
    "Revenues" 5 ("RevenueDupA", 1) ("RevenueDupB", 1) [] hrank
  exact ⟨hthm.1 (by norm_num), hthm.2.2 ["revenue"] (by decide)
    (fun t => by norm_num [w1])⟩

/-- C7 amended: a target with no taxonomy text raises a key error (it does not
degrade to an empty result); an empty candidate pool (no reported tag has
taxonomy text) yields the empty `None` result rather than an error; and every
ranked candidate is a reported tag that has taxonomy text, so textless
candidates are excluded rather than scored as zero. -/
theorem c7_no_candidates_policy (w : String → ℚ)
    (texts : String → Option (List String)) (reported : List String)
    (target : String) (n : ℕ) :
    (texts target = none →
      choose_revenue_substitute w texts reported target n = .error .keyError) ∧
    ((reported.filter fun t => (texts t).isSome) = [] →
      ∀ ttoks, texts target = some ttoks →
      choose_revenue_substitute w texts reported target n = .ok none) ∧
    (∀ rk p, substituteRanking w texts reported target n = .ok rk → p ∈ rk →
      p.1 ∈ reported ∧ (texts p.1).isSome) := by
  refine ⟨?_, ?_,
    fun rk p hr hp => substituteRanking_mem w texts reported target n rk p hr hp⟩
  · intro ht
    rw [choose_revenue_substitute, substituteRanking, ht]
  · intro hemp ttoks ht
    have hfm : (reported.filterMap fun t => (texts t).map fun toks => (t, toks)) = [] := by
      rw [List.filterMap_eq_nil_iff]
      intro t htm
      have hnot := List.filter_eq_nil_iff.mp hemp t htm
      cases hx : texts t with
      | none => simp
      | some toks => rw [hx] at hnot; simp at hnot
    rw [choose_revenue_substitute, substituteRanking, ht, hfm]
    simp

/-- Witness for the no-candidates policy at concrete inputs: a textless target
errors, an empty pool returns `None`, and a concrete ranked candidate is a
reported tag with text. -/
theorem c7_no_candidates_policy_witness :
    choose_revenue_substitute w1 (fun _ => none) ["SomeTag"] "Revenues" 5 =
      .error .keyError ∧
    choose_revenue_substitute w1 c3texts ["NoTextTag"] "Revenues" 5 = .ok none ∧
    ("SalesRevenueNet" ∈ ["SalesRevenueNet"] ∧
      (c3texts "SalesRevenueNet").isSome) := by
  have hrank : substituteRanking w1 c3texts ["SalesRevenueNet"] "Revenues" 24 =
      .ok [("SalesRevenueNet", 1 / 2)] := by
    simp +decide [substituteRanking, c3texts, w1, scoreQ, dotW, tokCount,
      List.dedup, List.foldl, List.filter, List.filterMap,
      List.insertionSort, List.orderedInsert]
    norm_num
  refine ⟨(c7_no_candidates_policy w1 (fun _ => none) ["SomeTag"] "Revenues" 5).1 rfl,
    (c7_no_candidates_policy w1 c3texts ["NoTextTag"] "Revenues" 5).2.1
      (by decide) ["revenue"] (by decide),
    (c7_no_candidates_policy w1 c3texts ["SalesRevenueNet"] "Revenues" 24).2.2
      [("SalesRevenueNet", 1 / 2)] ("SalesRevenueNet", 1 / 2) hrank
      (List.mem_cons_self _ _)⟩

theorem getLast?_mem {α : Type} : ∀ (l : List α) (a : α), l.getLast? = some a → a ∈ l
  | [], a => by simp
  | [b], a => by
    simp only [List.getLast?_singleton, Option.some.injEq]
    intro h
    simp [h.symm]
  | b :: c :: l, a => by
    rw [List.getLast?_cons_cons]
    intro h
    exact List.mem_cons_of_mem _ (getLast?_mem (c :: l) a h)

/-- In a list sorted by a reflexive relation, the last element is related to
every member from above. -/
theorem sorted_le_getLast {α : Type} (r : α → α → Prop) (hrefl : ∀ a, r a a) :
    ∀ (l : List α), l.Sorted r → ∀ a, l.getLast? = some a → ∀ x ∈ l, r x a
  | [] => by simp
  | b :: l => by
    intro hl a ha x hx
    cases l with
    | nil =>
      simp only [List.getLast?_singleton, Option.some.injEq] at ha
      rcases List.mem_singleton.mp hx with rfl
      rw [← ha]
      exact hrefl x
    | cons c l' =>
      rw [List.getLast?_cons_cons] at ha
      rcases List.mem_cons.mp hx with rfl | hx'
      · have hmem : a ∈ c :: l' := getLast?_mem _ _ ha
        exact (List.sorted_cons.mp hl).1 a hmem
      · exact sorted_le_getLast r hrefl (c :: l') (List.sorted_cons.mp hl).2 a ha x hx'

/-- Function `pick_best_alternative_for_fy` returns, for a fiscal year with a nonempty
alternatives list, an element of that list whose filing timestamp is maximal
(Python's stable ascending sort followed by `cand[-1]`). -/
theorem pick_best_spec (alts : List (Int × List Fact)) (fy : Int) (metric : String)
    (hne : (dictGet alts fy).getD [] ≠ []) :
    ∃ a, pick_best_alternative_for_fy alts fy metric = some a ∧
      a ∈ (dictGet alts fy).getD [] ∧
      ∀ x ∈ (dictGet alts fy).getD [],
        pyLe (x.filed.getD "") (a.filed.getD "") = true := by
  haveI hto : IsTotal Fact (fun a b : Fact =>
      pyLe (a.filed.getD "") (b.filed.getD "") = true) :=
    ⟨fun a b => pyLe_total _ _⟩
  haveI htr : IsTrans Fact (fun a b : Fact =>
      pyLe (a.filed.getD "") (b.filed.getD "") = true) :=
    ⟨fun a b c => pyLe_trans _ _ _⟩
  cases hc : (dictGet alts fy).getD [] with
  | nil => exact absurd hc hne
  | cons c cs =>
    have hsorted := List.sorted_insertionSort
      (fun a b : Fact => pyLe (a.filed.getD "") (b.filed.getD "") = true) (c :: cs)
    have hperm := List.perm_insertionSort
      (fun a b : Fact => pyLe (a.filed.getD "") (b.filed.getD "") = true) (c :: cs)
    have hsne : (List.insertionSort
        (fun a b : Fact => pyLe (a.filed.getD "") (b.filed.getD "") = true)
        (c :: cs)) ≠ [] := by
      intro hnil
      have := hperm.length_eq
      rw [hnil] at this
      simp at this
    have hlast : ∃ a, (List.insertionSort
        (fun a b : Fact => pyLe (a.filed.getD "") (b.filed.getD "") = true)
        (c :: cs)).getLast? = some a := by
      cases hx : (List.insertionSort
          (fun a b : Fact => pyLe (a.filed.getD "") (b.filed.getD "") = true)
          (c :: cs)).getLast? with
      | none => exact absurd (List.getLast?_eq_none_iff.mp hx) hsne
      | some a => exact ⟨a, rfl⟩
    rcases hlast with ⟨a, ha⟩
    refine ⟨a, ?_, ?_, ?_⟩
    · simp only [pick_best_alternative_for_fy, hc]
      exact ha
    · exact hperm.mem_iff.mp (getLast?_mem _ _ ha)
    · intro x hx
      exact sorted_le_getLast
        (fun a b : Fact => pyLe (a.filed.getD "") (b.filed.getD "") = true)
        (fun y => pyLe_refl (y.filed.getD "")) _ hsorted a ha x
        (hperm.mem_iff.mpr hx)

/-- C3 amended: for a fiscal year with no eligible primary record and a
nonempty collected-alternatives list, the engine chooses — tagged
`"alternative"` — the collected alternative fact with the maximal filing
timestamp (the last element of Python's stable ascending sort by `filed`);
the collected facts themselves come from slicing the resolver's single
recommended substitute into one-character concepts (`c3_counterexample`), not
from trying ranked candidates in order. -/
theorem c3_alternative_choice (primaryMap : List (Int × Fact))
    (altMap : List (Int × List Fact)) (fy : Int) (metric : String) (ac : Bool)
    (hp : dictGet primaryMap fy = none)
    (hne : (dictGet altMap fy).getD [] ≠ []) :
    ∃ a, (choose_for_fy primaryMap altMap fy metric ac).chosen =
        some ("alternative", a) ∧
      a ∈ (choose_for_fy primaryMap altMap fy metric ac).alternatives ∧
      ∀ x ∈ (choose_for_fy primaryMap altMap fy metric ac).alternatives,
        pyLe (x.filed.getD "") (a.filed.getD "") = true := by
  rcases pick_best_spec altMap fy metric hne with ⟨a, hpb, hmem, hmax⟩
  refine ⟨a, ?_, hmem, hmax⟩
  rw [choose_for_fy]
  dsimp only
  rw [hp, hpb]

/-- Witness for the alternative-choice theorem at concrete inputs: with no
primary and one collected alternative fact for 2020, that fact is chosen with
source `"alternative"`. -/
theorem c3_alternative_choice_witness :
    (choose_for_fy [] [(2020, [sec_row_to_fact "S" c3row])] 2020
      "Revenues" true).chosen =
      some ("alternative", sec_row_to_fact "S" c3row) := by
  obtain ⟨a, ha, hmem, _⟩ := c3_alternative_choice []
    [(2020, [sec_row_to_fact "S" c3row])] 2020 "Revenues" true rfl (by decide)
  have halts : (choose_for_fy [] [(2020, [sec_row_to_fact "S" c3row])] 2020
      "Revenues" true).alternatives = [sec_row_to_fact "S" c3row] := by decide
  rw [halts] at hmem
  rw [List.mem_singleton.mp hmem] at ha
  exact ha

theorem dictGet_isSome_iff {α : Type} : ∀ (m : List (Int × α)) (k : Int),
    (dictGet m k).isSome ↔ k ∈ m.map Prod.fst
  | [], k => by simp [dictGet]
  | p :: m, k => by
    by_cases h : p.1 = k
    · rw [dictGet, List.find?_cons_of_pos _ (by simp [h])]
      simp [h]
    · rw [dictGet, List.find?_cons_of_neg _ (by simp [h])]
      have ih := dictGet_isSome_iff m k
      rw [dictGet] at ih
      rw [ih]
      simp only [List.map_cons, List.mem_cons]
      constructor
      · exact Or.inr
      · rintro (hk | hk)
        · exact absurd hk.symm h
        · exact hk

theorem dictGet_mem {α : Type} (m : List (Int × α)) (k : Int)
    (h : k ∈ m.map Prod.fst) : ∃ f, dictGet m k = some f :=
  Option.isSome_iff_exists.mp ((dictGet_isSome_iff m k).mpr h)

theorem carry_step_mem (i : Int) (av : List (Int × Fact)) (p : Int × List Fact) :
    i ∈ (carry_step av p).map Prod.fst ↔
      i ∈ av.map Prod.fst ∨ (p.1 = i ∧ p.2 ≠ []) := by
  rw [carry_step]
  cases hl : p.2.getLast? with
  | none =>
    have hpe : p.2 = [] := List.getLast?_eq_none_iff.mp hl
    simp [hpe]
  | some last =>
    have hpne : p.2 ≠ [] := by
      intro h
      rw [h] at hl
      simp at hl
    dsimp only
    by_cases hin : (dictGet av p.1).isSome
    · rw [if_pos hin]
      have hpin := (dictGet_isSome_iff av p.1).mp hin
      constructor
      · exact Or.inl
      · rintro (h | ⟨hpi, _⟩)
        · exact h
        · rw [← hpi]
          exact hpin
    · rw [if_neg hin]
      simp only [List.map_append, List.map_cons, List.map_nil,
        List.mem_append, List.mem_singleton]
      constructor
      · rintro (h | h)
        · exact Or.inl h
        · exact Or.inr ⟨h.symm, hpne⟩
      · rintro (h | ⟨hpi, _⟩)
        · exact Or.inl h
        · exact Or.inr hpi.symm

/-- Membership in the carry pool: exactly the fiscal years carrying a primary
fact or a nonempty alternatives list. -/
theorem available_fold_mem (i : Int) :
    ∀ (altMap : List (Int × List Fact)) (av : List (Int × Fact)),
      i ∈ (altMap.foldl carry_step av).map Prod.fst ↔
        i ∈ av.map Prod.fst ∨ ∃ p ∈ altMap, p.1 = i ∧ p.2 ≠ []
  | [], av => by simp
  | p :: altMap, av => by
    rw [List.foldl_cons, available_fold_mem i altMap (carry_step av p),
      carry_step_mem]
    constructor
    · rintro ((h | ⟨hpi, hpne⟩) | ⟨q, hq, hqi, hqne⟩)
      · exact Or.inl h
      · exact Or.inr ⟨p, List.mem_cons_self _ _, hpi, hpne⟩
      · exact Or.inr ⟨q, List.mem_cons_of_mem _ hq, hqi, hqne⟩
    · rintro (h | ⟨q, hq, hqi, hqne⟩)
      · exact Or.inl (Or.inl h)
      · rcases List.mem_cons.mp hq with rfl | hq'
        · exact Or.inl (Or.inr ⟨hqi, hqne⟩)
        · exact Or.inr ⟨q, hq', hqi, hqne⟩

/-- Invariant of the `nearest_fy_with_fact` fold over an ascending pool:
the final state names a non-target year of minimal absolute distance, with
ties resolved to the earliest (first-iterated, hence smallest) year, and the
distance only ever improves strictly below the `10^9` initialization. -/
theorem nearest_foldl_spec (fy : Int) :
    ∀ (pool : List Int) (b : Option Int) (d : Int),
      pool.Sorted (· ≤ ·) →
      (∀ k, b = some k → k ≠ fy ∧ d = |k - fy| ∧ ∀ i ∈ pool, k ≤ i) →
      (∀ k, (pool.foldl (nearest_step fy) (b, d)).1 = some k →
          k ≠ fy ∧ (pool.foldl (nearest_step fy) (b, d)).2 = |k - fy| ∧
          (b = some k ∨ k ∈ pool)) ∧
      (((pool.foldl (nearest_step fy) (b, d)).1 = b ∧
          (pool.foldl (nearest_step fy) (b, d)).2 = d) ∨
        (pool.foldl (nearest_step fy) (b, d)).2 < d) ∧
      (∀ i ∈ pool, i ≠ fy → (pool.foldl (nearest_step fy) (b, d)).2 ≤ |i - fy|) ∧
      (∀ k i, (pool.foldl (nearest_step fy) (b, d)).1 = some k → i ∈ pool →
          i ≠ fy → (pool.foldl (nearest_step fy) (b, d)).2 = |i - fy| → k ≤ i) ∧
      (b.isSome → (pool.foldl (nearest_step fy) (b, d)).1.isSome) ∧
      ((∃ i ∈ pool, i ≠ fy ∧ |i - fy| < d) →
        (pool.foldl (nearest_step fy) (b, d)).1.isSome)
  | [], b, d => by
    intro _ hb
    refine ⟨?_, Or.inl ⟨rfl, rfl⟩, by simp, by simp, fun h => h, by simp⟩
    intro k hk
    obtain ⟨h1, h2, _⟩ := hb k hk
    exact ⟨h1, h2, Or.inl hk⟩
  | a :: pool, b, d => by
    intro hs hb
    have hs' : pool.Sorted (· ≤ ·) := hs.of_cons
    have hall : ∀ i ∈ pool, a ≤ i := (List.sorted_cons.mp hs).1
    rw [List.foldl_cons]
    by_cases ha : a = fy
    · have hstep : nearest_step fy (b, d) a = (b, d) := by
        simp [nearest_step, ha]
      rw [hstep]
      have hb' : ∀ k, b = some k → k ≠ fy ∧ d = |k - fy| ∧ ∀ i ∈ pool, k ≤ i := by
        intro k hk
        obtain ⟨h1, h2, h3⟩ := hb k hk
        exact ⟨h1, h2, fun i hi => h3 i (List.mem_cons_of_mem _ hi)⟩
      obtain ⟨C1, C2, C3, C4, C5, C6⟩ := nearest_foldl_spec fy pool b d hs' hb'
      refine ⟨?_, C2, ?_, ?_, C5, ?_⟩
      · intro k hk
        obtain ⟨h1, h2, h3⟩ := C1 k hk
        refine ⟨h1, h2, ?_⟩
        rcases h3 with h3 | h3
        · exact Or.inl h3
        · exact Or.inr (List.mem_cons_of_mem _ h3)
      · intro i hi hif
        rcases List.mem_cons.mp hi with rfl | hi'
        · exact absurd ha hif
        · exact C3 i hi' hif
      · intro k i hk hi hif heq
        rcases List.mem_cons.mp hi with rfl | hi'
        · rw [ha] at hif
          exact absurd rfl hif
        · exact C4 k i hk hi' hif heq
      · rintro ⟨i, hi, hif, hid⟩
        rcases List.mem_cons.mp hi with rfl | hi'
        · rw [ha] at hif
          exact absurd rfl hif
        · exact C6 ⟨i, hi', hif, hid⟩
    · by_cases hd : |a - fy| < d
      · have hstep : nearest_step fy (b, d) a = (some a, |a - fy|) := by
          simp [nearest_step, ha, hd]
        rw [hstep]
        have hbnew : ∀ k, (some a : Option Int) = some k →
            k ≠ fy ∧ |a - fy| = |k - fy| ∧ ∀ i ∈ pool, k ≤ i := by
          intro k hk
          cases hk
          exact ⟨ha, rfl, hall⟩
        obtain ⟨C1, C2, C3, C4, C5, C6⟩ :=
          nearest_foldl_spec fy pool (some a) |a - fy| hs' hbnew
        refine ⟨?_, ?_, ?_, ?_, ?_, ?_⟩
        · intro k hk
          obtain ⟨h1, h2, h3⟩ := C1 k hk
          refine ⟨h1, h2, Or.inr ?_⟩
          rcases h3 with h3 | h3
          · cases Option.some.inj h3
            exact List.mem_cons_self _ _
          · exact List.mem_cons_of_mem _ h3
        · right
          rcases C2 with ⟨_, h2⟩ | h2
          · rw [h2]
            exact hd
          · exact lt_trans h2 hd
        · intro i hi hif
          rcases List.mem_cons.mp hi with rfl | hi'
          · rcases C2 with ⟨_, h2⟩ | h2
            · rw [h2]
            · exact le_of_lt h2
          · exact C3 i hi' hif
        · intro k i hk hi hif heq
          rcases List.mem_cons.mp hi with rfl | hi'
          · rcases C2 with ⟨h1, h2⟩ | h2
            · rw [hk] at h1
              cases Option.some.inj h1.symm
              exact le_refl _
            · rw [heq] at h2
              exact absurd h2 (lt_irrefl _)
          · exact C4 k i hk hi' hif heq
        · intro _
          exact C5 (by simp)
        · intro _
          exact C5 (by simp)
      · have hstep : nearest_step fy (b, d) a = (b, d) := by
          simp [nearest_step, ha, hd]
        rw [hstep]
        have hb' : ∀ k, b = some k → k ≠ fy ∧ d = |k - fy| ∧ ∀ i ∈ pool, k ≤ i := by
          intro k hk
          obtain ⟨h1, h2, h3⟩ := hb k hk
          exact ⟨h1, h2, fun i hi => h3 i (List.mem_cons_of_mem _ hi)⟩
        obtain ⟨C1, C2, C3, C4, C5, C6⟩ := nearest_foldl_spec fy pool b d hs' hb'
        have hda : d ≤ |a - fy| := le_of_not_lt hd
        refine ⟨?_, C2, ?_, ?_, C5, ?_⟩
        · intro k hk
          obtain ⟨h1, h2, h3⟩ := C1 k hk
          refine ⟨h1, h2, ?_⟩
          rcases h3 with h3 | h3
          · exact Or.inl h3
          · exact Or.inr (List.mem_cons_of_mem _ h3)
        · intro i hi hif
          rcases List.mem_cons.mp hi with rfl | hi'
          · rcases C2 with ⟨_, h2⟩ | h2
            · rw [h2]
              exact hda
            · exact le_trans (le_of_lt h2) hda
          · exact C3 i hi' hif
        · intro k i hk hi hif heq
          rcases List.mem_cons.mp hi with rfl | hi'
          · have hr2 : (pool.foldl (nearest_step fy) (b, d)).2 = d := by
              rcases C2 with ⟨_, h2⟩ | h2
              · exact h2
              · have := C3
                rw [heq] at h2
                exact absurd (lt_of_lt_of_le h2 hda) (lt_irrefl _)
            rcases C2 with ⟨h1, _⟩ | h2
            · rw [hk] at h1
              obtain ⟨_, _, h3⟩ := hb k h1.symm
              exact h3 i (List.mem_cons_self _ _)
            · rw [hr2] at h2
              exact absurd h2 (lt_irrefl _)
          · exact C4 k i hk hi' hif heq
        · rintro ⟨i, hi, hif, hid⟩
          rcases List.mem_cons.mp hi with rfl | hi'
          · exact absurd hid hd
          · exact C6 ⟨i, hi', hif, hid⟩

/-- Specification of `nearest_fy_with_fact`: whenever some other year within
the `10^9` initialization bound exists in the map, the function returns a
non-target year of the map at minimal absolute distance, ties resolved to the
earlier year. -/
theorem nearest_spec (fy : Int) (m : List (Int × Fact)) (j : Int)
    (hj : j ∈ m.map Prod.fst) (hjne : j ≠ fy) (hjd : |j - fy| < 10 ^ 9) :
    ∃ k, nearest_fy_with_fact fy m = some k ∧ k ≠ fy ∧ k ∈ m.map Prod.fst ∧
      ∀ i ∈ m.map Prod.fst, i ≠ fy →
        |k - fy| < |i - fy| ∨ (|k - fy| = |i - fy| ∧ k ≤ i) := by
  cases m with
  | nil => simp at hj
  | cons p ps =>
    have hperm := List.perm_insertionSort (· ≤ ·) ((p :: ps).map Prod.fst)
    have hsorted : (List.insertionSort (· ≤ ·) ((p :: ps).map Prod.fst)).Sorted
        (· ≤ ·) :=
      List.sorted_insertionSort (· ≤ ·) _
    obtain ⟨C1, C2, C3, C4, C5, C6⟩ := nearest_foldl_spec fy
      (List.insertionSort (· ≤ ·) ((p :: ps).map Prod.fst)) none (10 ^ 9)
      hsorted (by intro k hk; cases hk)
    have hex : ((List.insertionSort (· ≤ ·) ((p :: ps).map Prod.fst)).foldl
        (nearest_step fy) (none, 10 ^ 9)).1.isSome :=
      C6 ⟨j, hperm.mem_iff.mpr hj, hjne, hjd⟩
    obtain ⟨k, hk⟩ := Option.isSome_iff_exists.mp hex
    obtain ⟨hk1, hk2, hk3⟩ := C1 k hk
    have hkmem : k ∈ (p :: ps).map Prod.fst := by
      rcases hk3 with h | h
      · cases h
      · exact hperm.mem_iff.mp h
    refine ⟨k, ?_, hk1, hkmem, ?_⟩
    · exact hk
    · intro i hi hif
      have hips := hperm.mem_iff.mpr hi
      have hle := C3 i hips hif
      rw [hk2] at hle
      rcases lt_or_eq_of_le hle with h | h
      · exact Or.inl h
      · exact Or.inr ⟨h, C4 k i hk hips hif (by rw [hk2, h])⟩

/-- C4: for a fiscal year with neither an eligible primary fact nor collected
alternatives, with carry-forward enabled and some other year available within
the initialization bound, the engine chooses — tagged `"carried"` — a copy of
the fact of the chronologically nearest other year having a primary or an
alternative fact (ties resolved toward the earlier year), and records that
year in `carry_from_fy`. -/
theorem c4_carry_nearest (primaryMap : List (Int × Fact))
    (altMap : List (Int × List Fact)) (fy : Int) (metric : String)
    (hp : dictGet primaryMap fy = none)
    (ha : (dictGet altMap fy).getD [] = [])
    (j : Int) (hj : j ∈ (available_for_carry primaryMap altMap).map Prod.fst)
    (hjne : j ≠ fy) (hjd : |j - fy| < 10 ^ 9) :
    ∃ k f, nearest_fy_with_fact fy (available_for_carry primaryMap altMap) = some k ∧
      dictGet (available_for_carry primaryMap altMap) k = some f ∧
      (choose_for_fy primaryMap altMap fy metric true).chosen =
        some ("carried", { f with carry_from_fy := some k }) ∧
      k ≠ fy ∧ k ∈ (available_for_carry primaryMap altMap).map Prod.fst ∧
      (∀ i ∈ (available_for_carry primaryMap altMap).map Prod.fst, i ≠ fy →
        |k - fy| < |i - fy| ∨ (|k - fy| = |i - fy| ∧ k ≤ i)) ∧
      (∀ i : Int, i ∈ (available_for_carry primaryMap altMap).map Prod.fst ↔
        i ∈ primaryMap.map Prod.fst ∨ ∃ q ∈ altMap, q.1 = i ∧ q.2 ≠ []) := by
  obtain ⟨k, hnear, hkne, hkmem, hmin⟩ :=
    nearest_spec fy (available_for_carry primaryMap altMap) j hj hjne hjd
  obtain ⟨f, hf⟩ := dictGet_mem _ k hkmem
  have hpb : pick_best_alternative_for_fy altMap fy metric = none := by
    simp [pick_best_alternative_for_fy, ha]
  refine ⟨k, f, hnear, hf, ?_, hkne, hkmem, hmin,
    fun i => available_fold_mem i altMap primaryMap⟩
  rw [choose_for_fy]
  dsimp only
  rw [hp, hpb, if_pos rfl, hnear]
  dsimp only
  rw [hf]

/-- Witness for the carry theorem at concrete inputs: fiscal year 2018 carries
from 2016 (the earlier of the two equidistant years 2016 and 2020), recording
`carry_from_fy = 2016`. -/
theorem c4_carry_nearest_witness :
    (choose_for_fy [(2016, sec_row_to_fact "m" c1_rowK),
        (2020, sec_row_to_fact "m" c1_rowQ)] [] 2018 "m" true).chosen =
      some ("carried",
        { sec_row_to_fact "m" c1_rowK with carry_from_fy := some 2016 }) := by
  obtain ⟨k, f, h1, h2, h3, _⟩ := c4_carry_nearest
    [(2016, sec_row_to_fact "m" c1_rowK), (2020, sec_row_to_fact "m" c1_rowQ)]
    [] 2018 "m" rfl (by decide) 2016 (by decide) (by decide) (by decide)
  have hn : nearest_fy_with_fact 2018
      (available_for_carry [(2016, sec_row_to_fact "m" c1_rowK),
        (2020, sec_row_to_fact "m" c1_rowQ)] []) = some 2016 := by decide
  rw [hn] at h1
  cases Option.some.inj h1
  have hg : dictGet (available_for_carry [(2016, sec_row_to_fact "m" c1_rowK),
      (2020, sec_row_to_fact "m" c1_rowQ)] []) 2016 =
      some (sec_row_to_fact "m" c1_rowK) := by decide
  rw [hg] at h2
  cases Option.some.inj h2
  exact h3

theorem prefixSearch_nil (parts : List String) :
    ∀ i : ℕ, prefixSearch [] parts i = none
  | 0 => rfl
  | i + 1 => by
    rw [prefixSearch]
    simp [dictGetS, prefixSearch_nil parts i]

/-- Inserting into a list sorted ascending by a natural key commutes with
filtering on one key value: every element passed over during insertion has a
strictly smaller key, so the inserted element lands in front of all elements
sharing its key (the stability of Python's sort). -/
theorem filter_orderedInsert {α : Type} (key : α → ℕ) (v : ℕ) (a : α) :
    ∀ l : List α, l.Sorted (fun x y => key x ≤ key y) →
      (List.orderedInsert (fun x y => key x ≤ key y) a l).filter
          (fun x => key x = v) =
        if key a = v then a :: l.filter (fun x => key x = v)
        else l.filter (fun x => key x = v)
  | [], _ => by
    by_cases h : key a = v <;> simp [List.orderedInsert, h]
  | b :: l, hs => by
    rw [List.orderedInsert]
    by_cases hr : key a ≤ key b
    · rw [if_pos hr]
      by_cases h : key a = v <;> simp [List.filter_cons, h]
    · rw [if_neg hr]
      have hlt : key b < key a := lt_of_not_le hr
      have ih := filter_orderedInsert key v a l (List.sorted_cons.mp hs).2
      by_cases h : key a = v
      · have hb : ¬ key b = v := by omega
        rw [if_pos h] at ih
        simp [List.filter_cons, hb, ih, h]
      · rw [if_neg h] at ih
        rw [if_neg h]
        by_cases hb : key b = v <;> simp [List.filter_cons, hb, ih]

/-- Stability of the embedded sort: filtering the ascending insertion sort on
one key value returns those elements in their original order. -/
theorem filter_insertionSort {α : Type} (key : α → ℕ) (v : ℕ) :
    ∀ l : List α,
      (List.insertionSort (fun x y => key x ≤ key y) l).filter
          (fun x => key x = v) =
        l.filter (fun x => key x = v)
  | [] => rfl
  | a :: l => by
    haveI : IsTotal α (fun x y => key x ≤ key y) := ⟨fun x y => le_total _ _⟩
    haveI : IsTrans α (fun x y => key x ≤ key y) :=
      ⟨fun x y z h1 h2 => le_trans h1 h2⟩
    rw [List.insertionSort,
      filter_orderedInsert key v a _ (List.sorted_insertionSort _ l),
      filter_insertionSort key v l]
    by_cases h : key a = v <;> simp [List.filter_cons, h]

/-- C8 amended: the depth-difference scorer's reference depth is the target's
own depth when recorded; an empty depth map yields no candidates; the output
is capped at `n`, ascending in the gap `|depth(candidate) − ref|`, and contains
only reported candidates with a recorded depth, scored by that absolute gap;
within one gap value, candidates appear in the order the reported set is
iterated (the stable sort) — not in identifier order (`c8_counterexample`). -/
theorem c8_depth_difference (depths : List (String × ℕ)) (reported : List String)
    (target : String) (n : ℕ) :
    (∀ d, dictGetS depths target = some d → refDepth depths target = some d) ∧
    (depths = [] → granularity_difference depths reported target n = []) ∧
    (granularity_difference depths reported target n).length ≤ n ∧
    (∀ ref, refDepth depths target = some ref →
      ((granularity_difference depths reported target n).Sorted
          (fun a b => a.2 ≤ b.2) ∧
       (∀ p ∈ granularity_difference depths reported target n,
          p.1 ∈ reported ∧ ∃ d, dictGetS depths p.1 = some d ∧
            p.2 = ((d : Int) - (ref : Int)).natAbs) ∧
       (∀ v : ℕ, (granularity_difference depths reported target n).filter
            (fun p => p.2 = v) <+:
          (reported.filterMap fun t =>
            (dictGetS depths t).map fun d =>
              (t, ((d : Int) - (ref : Int)).natAbs)).filter
            (fun p => p.2 = v)))) := by
  refine ⟨?_, ?_, ?_, ?_⟩
  · intro d h
    rw [refDepth, h]
  · intro h
    subst h
    simp [granularity_difference, refDepth, dictGetS, medianFallback,
      prefixSearch_nil]
  · rw [granularity_difference]
    cases refDepth depths target with
    | none => simp
    | some ref => exact List.length_take_le n _
  · intro ref href
    haveI : IsTotal (String × ℕ) (fun a b => a.2 ≤ b.2) :=
      ⟨fun x y => le_total _ _⟩
    haveI : IsTrans (String × ℕ) (fun a b => a.2 ≤ b.2) :=
      ⟨fun x y z h1 h2 => le_trans h1 h2⟩
    have hs := List.sorted_insertionSort (fun a b : String × ℕ => a.2 ≤ b.2)
      (reported.filterMap fun t =>
        (dictGetS depths t).map fun d => (t, ((d : Int) - (ref : Int)).natAbs))
    have hperm := List.perm_insertionSort (fun a b : String × ℕ => a.2 ≤ b.2)
      (reported.filterMap fun t =>
        (dictGetS depths t).map fun d => (t, ((d : Int) - (ref : Int)).natAbs))
    have hgd : granularity_difference depths reported target n =
        (List.insertionSort (fun a b : String × ℕ => a.2 ≤ b.2)
          (reported.filterMap fun t =>
            (dictGetS depths t).map fun d =>
              (t, ((d : Int) - (ref : Int)).natAbs))).take n := by
      rw [granularity_difference, href]
    refine ⟨?_, ?_, ?_⟩
    · rw [hgd]
      exact hs.sublist (List.take_sublist n _)
    · intro p hp
      rw [hgd] at hp
      have hp1 := List.take_subset _ _ hp
      have hp2 := hperm.mem_iff.mp hp1
      rcases List.mem_filterMap.mp hp2 with ⟨t, hts, htx⟩
      cases hx : dictGetS depths t with
      | none => rw [hx] at htx; exact absurd htx (by simp)
      | some d =>
        rw [hx] at htx
        have hpd : p = (t, ((d : Int) - (ref : Int)).natAbs) := by
          simpa using htx.symm
        refine ⟨?_, d, ?_, ?_⟩
        · rw [hpd]; exact hts
        · rw [hpd]; exact hx
        · rw [hpd]
    · intro v
      have hf := filter_insertionSort (fun p : String × ℕ => p.2) v
        (reported.filterMap fun t =>
          (dictGetS depths t).map fun d => (t, ((d : Int) - (ref : Int)).natAbs))
      rw [hgd]
      calc (((List.insertionSort (fun a b : String × ℕ => a.2 ≤ b.2)
            (reported.filterMap fun t =>
              (dictGetS depths t).map fun d =>
                (t, ((d : Int) - (ref : Int)).natAbs))).take n).filter
            fun p => p.2 = v)
          <+: ((List.insertionSort (fun a b : String × ℕ => a.2 ≤ b.2)
            (reported.filterMap fun t =>
              (dictGetS depths t).map fun d =>
                (t, ((d : Int) - (ref : Int)).natAbs))).filter
            fun p => p.2 = v) := (List.take_prefix n _).filter _
        _ = _ := hf

/-- Witness for the depth-difference theorem at concrete inputs, exercising
the direct-depth reference, the empty-map case, the cap, and sortedness. -/
theorem c8_depth_difference_witness :
    refDepth [("Tgt", 4), ("TagB", 2), ("TagA", 2)] "Tgt" = some 4 ∧
    granularity_difference [] ["A"] "X" 3 = [] ∧
    (granularity_difference [("Tgt", 4), ("TagB", 2), ("TagA", 2)]
      ["TagB", "TagA"] "Tgt" 5).length ≤ 5 ∧
    (granularity_difference [("Tgt", 4), ("TagB", 2), ("TagA", 2)]
      ["TagB", "TagA"] "Tgt" 5).Sorted (fun a b => a.2 ≤ b.2) :=
  ⟨(c8_depth_difference [("Tgt", 4), ("TagB", 2), ("TagA", 2)]
      ["TagB", "TagA"] "Tgt" 5).1 4 rfl,
   (c8_depth_difference [] ["A"] "X" 3).2.1 rfl,
   (c8_depth_difference [("Tgt", 4), ("TagB", 2), ("TagA", 2)]
      ["TagB", "TagA"] "Tgt" 5).2.2.1,
   ((c8_depth_difference [("Tgt", 4), ("TagB", 2), ("TagA", 2)]
      ["TagB", "TagA"] "Tgt" 5).2.2.2 4 (by decide)).1⟩

theorem slice24_length_one (s : Option String) (t : String) (ht : t ∈ slice24 s) :
    t.length = 1 := by
  cases s with
  | none => simp [slice24] at ht
  | some s =>
    simp only [slice24] at ht
    rcases List.mem_map.mp ht with ⟨c, _, rfl⟩
    rfl

/-- The fetch block of one metric: the metric itself followed by
one-character alternative tags distinct from it. -/
theorem metricFetches_shape (w : String → ℚ) (texts : String → Option (List String))
    (reported : List String) (m : String) (l : List String)
    (h : metricFetches w texts reported m = .ok l) :
    ∃ alts, l = m :: alts ∧ ∀ t ∈ alts, t.length = 1 ∧ t ≠ m := by
  rw [metricFetches] at h
  cases hc : choose_revenue_substitute w texts reported m 24 with
  | error e => rw [hc] at h; exact absurd h (by simp)
  | ok sub =>
    rw [hc] at h
    simp only [Except.ok.injEq] at h
    refine ⟨(slice24 sub).filter fun t => ¬(t = "" ∨ t = m), h.symm, ?_⟩
    intro t ht
    have hmem := List.mem_filter.mp ht
    refine ⟨slice24_length_one sub t hmem.1, ?_⟩
    have := hmem.2
    simp only [decide_not, Bool.not_eq_true', decide_eq_false_iff_not] at this
    exact fun he => this (Or.inr he)

/-- Counting a long tag in the fetch trace: every metric block contributes one
occurrence of its own metric and none of any other tag of length at least
two. -/
theorem fetchTrace_count (w : String → ℚ) (texts : String → Option (List String))
    (reported : List String) :
    ∀ (ms : List String) (tr : List String),
      fetchTrace w texts reported ms = .ok tr →
      ∀ m : String, 2 ≤ m.length → tr.count m = ms.count m
  | [], tr => by
    intro h m _
    rw [fetchTrace] at h
    simp only [Except.ok.injEq] at h
    rw [← h]
  | m0 :: ms, tr => by
    intro h m hm
    rw [fetchTrace] at h
    cases hmf : metricFetches w texts reported m0 with
    | error e => rw [hmf] at h; exact absurd h (by simp)
    | ok l =>
      rw [hmf] at h
      cases hrest : fetchTrace w texts reported ms with
      | error e => rw [hrest] at h; exact absurd h (by simp)
      | ok rest =>
        rw [hrest] at h
        simp only [Except.ok.injEq] at h
        subst h
        rcases metricFetches_shape w texts reported m0 l hmf with ⟨alts, rfl, halts⟩
        have halts0 : alts.count m = 0 := by
          rw [List.count_eq_zero]
          intro hmem
          have := (halts m hmem).1
          omega
        have hrec := fetchTrace_count w texts reported ms rest hrest m hm
        rw [List.count_append, List.count_cons, List.count_cons, halts0, hrec]
        ring

/-- C9 amended: within one run's fetch trace each base metric's own
(entity, concept) pair is fetched exactly once by the per-metric loop; the
one-character alternative tags, by contrast, are fetched once per occurrence
with no memoization, so the same pair can recur (`c9_counterexample`). -/
theorem c9_primary_fetch_once (w : String → ℚ)
    (texts : String → Option (List String)) (reported : List String)
    (tr : List String) (h : fetchTrace w texts reported BASE_METRICS = .ok tr)
    (m : String) (hm : m ∈ BASE_METRICS) :
    tr.count m = 1 := by
  have hlen : 2 ≤ m.length := by
    have : ∀ x ∈ BASE_METRICS, 2 ≤ x.length := by decide
    exact this m hm
  rw [fetchTrace_count w texts reported BASE_METRICS tr h m hlen]
  have hnd : BASE_METRICS.Nodup := by decide
  exact List.count_eq_one_of_mem hnd hm

/-- Witness for the fetch-count theorem: in the concrete duplicate-fetch run,
`"Revenues"` itself is still fetched exactly once. -/
theorem c9_primary_fetch_once_witness : c9trace.count "Revenues" = 1 :=
  c9_primary_fetch_once w1 c9texts ["Zxq"] c9trace
    (by simp +decide [fetchTrace, metricFetches, choose_revenue_substitute,
      substituteRanking, slice24, scoreQ, dotW, tokCount, c9texts, w1,
      BASE_METRICS, c9trace, List.dedup, List.foldl, List.filter,
      List.filterMap, List.insertionSort, List.orderedInsert])
    "Revenues" (by decide)

/-- The folded tag collection of `tags_list` never contains `"Revenues"`. -/
theorem tags_fold_no_revenues :
    ∀ (facts : List (String × GaapNode)) (acc : List String),
      "Revenues" ∉ acc →
      "Revenues" ∉ facts.foldl (fun acc p =>
        if p.1 = "Revenues" then acc
        else if (p.2.units.any fun u => u.2.any fun r => 2014 ≤ r.fy.getD 0) then
          (if p.1 ∈ acc then acc else acc ++ [p.1])
        else acc) acc
  | [], acc => fun h => h
  | p :: facts, acc => by
    intro hacc
    rw [List.foldl_cons]
    apply tags_fold_no_revenues facts
    by_cases h1 : p.1 = "Revenues"
    · simpa [h1] using hacc
    · by_cases h2 : (p.2.units.any fun u => u.2.any fun r => 2014 ≤ r.fy.getD 0)
      · by_cases h3 : p.1 ∈ acc
        · simpa [h1, h2, h3] using hacc
        · simp only [h1, if_false, h2, if_true, h3]
          intro hmem
          rcases List.mem_append.mp hmem with hmem | hmem
          · exact hacc hmem
          · exact h1 (List.mem_singleton.mp hmem).symm
      · simpa [h1, h2] using hacc

/-- C10: the reported-concept pool never contains `"Revenues"` — it is
unconditionally excluded, even when the company facts carry recent rows for it
— the pool is returned sorted ascending by concept identifier (code-point
order), and consequently no resolution call over this pool can return
`"Revenues"` as its recommended substitute. -/
theorem c10_revenues_never_proposed (facts : List (String × GaapNode))
    (w : String → ℚ) (texts : String → Option (List String)) (target : String)
    (n : ℕ) (s : String)
    (hs : choose_revenue_substitute w texts (tags_list facts) target n =
      .ok (some s)) :
    "Revenues" ∉ tags_list facts ∧
    (tags_list facts).Sorted (fun a b => pyLe a b = true) ∧
    s ≠ "Revenues" := by
  haveI : IsTotal String (fun a b => pyLe a b = true) := ⟨pyLe_total⟩
  haveI : IsTrans String (fun a b => pyLe a b = true) :=
    ⟨fun a b c => pyLe_trans a b c⟩
  have hnr : "Revenues" ∉ tags_list facts := by
    rw [tags_list]
    intro hmem
    exact tags_fold_no_revenues facts [] (by simp)
      ((List.perm_insertionSort _ _).mem_iff.mp hmem)
  refine ⟨hnr, List.sorted_insertionSort _ _, ?_⟩
  intro he
  subst he
  exact hnr (choose_mem_reported w texts (tags_list facts) target n _ hs)

/-- Witness for the Revenues-exclusion theorem at concrete company facts that
do report `"Revenues"` recently: the pool omits it, is sorted, and the
resolver's recommendation (`"Assets"`) is not `"Revenues"`. -/
theorem c10_revenues_never_proposed_witness :
    "Revenues" ∉ tags_list c10facts ∧
    (tags_list c10facts).Sorted (fun a b => pyLe a b = true) ∧
    "Assets" ≠ "Revenues" :=
  c10_revenues_never_proposed c10facts w1 c9texts "Revenues" 5 "Assets"
    (by simp +decide [choose_revenue_substitute, substituteRanking, tags_list,
      c10facts, c10recent, c10old, c9texts, w1, scoreQ, dotW, tokCount,
      List.dedup, List.foldl, List.filter, List.filterMap,
      List.insertionSort, List.orderedInsert, pyLe, pyStrLtB, c1_rowK])

end Spec2Proof
